import Mathlib

/-!
Verification of the `repl-check` repository core: the line-pattern matcher
(`src/pattern.rs`), the copy-on-write line buffer (`src/common.rs`) and the
session builder / session driver (`src/lib.rs`), shallowly embedded in Lean.

Lines are modelled as `String`.  The Rust string helpers `trim_end` and `trim`
are re-implemented over the character list of a string (Lean's built-in
`String.trim` does not reduce in the kernel), with the whitespace notion of
`Char.isWhitespace`.
-/

deriving instance DecidableEq for Except

namespace ReplCheck

/-! ## String helpers (models of Rust `str::trim_end`, `str::trim`, `str::lines`) -/

/-- Drop trailing whitespace characters from a character list. -/
def trimRightChars (cs : List Char) : List Char :=
  (cs.reverse.dropWhile Char.isWhitespace).reverse

/-- Drop leading and trailing whitespace characters from a character list. -/
def trimChars (cs : List Char) : List Char :=
  trimRightChars (cs.dropWhile Char.isWhitespace)

/-- Model of Rust `str::trim_end`. -/
def trim_end (s : String) : String :=
  String.mk (trimRightChars s.data)

/-- Model of Rust `str::trim` (trims both ends). -/
def trim (s : String) : String :=
  String.mk (trimChars s.data)

/-- Split a character list at newline characters; an empty list yields one
empty piece, mirroring `"".split('\n')`. -/
def splitOnNewline (cs : List Char) : List (List Char) :=
  match cs with
  | [] => [[]]
  | c :: rest =>
    let tail := splitOnNewline rest
    if c = '\n' then [] :: tail
    else match tail with
      | [] => [[c]]
      | t :: ts => (c :: t) :: ts

/-- Model of Rust `str::lines`: split at `'\n'`, drop a final empty piece
(so a trailing newline does not produce an extra line), and strip one
trailing `'\r'` from each line. -/
def strLines (s : String) : List String :=
  let parts := splitOnNewline s.data
  let parts := if parts.getLast? = some [] then parts.dropLast else parts
  parts.map (fun l => String.mk (if l.getLast? = some '\r' then l.dropLast else l))

/-! ## src/pattern.rs -/

/-- `ParseError` from `src/pattern.rs`: the expected line (or end of input)
and the actually received line (or end of input). -/
structure ParseError where
  expected : Option String
  got : Option String
deriving DecidableEq, Repr

/-- `ParseResult` from `src/pattern.rs`: on success, the remaining actual
lines and `none` if nothing should be updated or `some lines` if the input
should be updated. -/
abbrev ParseResult := Except ParseError (List String × Option (List String))

/-- `match_lines` from `src/pattern.rs`: match expected against actual
line by line (comparing with `trim_end`), returning the leftover actual
lines; never requests an update. -/
def match_lines : List String → List String → ParseResult
  | [], actual => .ok (actual, none)
  | e :: _, [] => .error ⟨some e, none⟩
  | e :: es, a :: rest =>
    if trim_end e ≠ trim_end a then .error ⟨some e, some a⟩
    else match_lines es rest

/-- The hole marker used by `with_holes::<UPDATE>`: `"???"` for the
updating (capture) pass and `"..."` for the skip pass. -/
def holeMarker (update : Bool) : String :=
  if update then "???" else "..."

/-- Model of `expected.iter().position(|line| line.trim() == hole)` together
with the slicings `&expected[..hole_idx]` / `expected[hole_idx]` /
`&expected[hole_idx + 1..]`: locate the first line whose `trim` equals the
hole marker and return the lines before it, the hole line itself, and the
lines after it. -/
def findHole (hole : String) : List String → Option (List String × String × List String)
  | [] => none
  | l :: ls =>
    if trim l = hole then some ([], l, ls)
    else (findHole hole ls).map (fun r => (l :: r.1, r.2.1, r.2.2))

/-- The update-combination step of `with_holes` (lines 77-102 of
`src/pattern.rs`): the hole content is the consumed actual lines for the
capture pass and the literal hole line for the skip pass; the `(none, none)`
case yields `none`. -/
def combineUpdate (update : Bool) (holeLine : String)
    (beforeHole afterHole consumed : List String)
    (updatedBefore updatedAfter : Option (List String)) : Option (List String) :=
  let holeContent := if update then consumed else [holeLine]
  match updatedBefore, updatedAfter with
  | some x, some y => some (x ++ holeContent ++ y)
  | some x, none => some (x ++ holeContent ++ afterHole)
  | none, some y => some (beforeHole ++ holeContent ++ y)
  | none, none => none

/-- Control flow of the split-point loop in `with_holes`: return the first
`ok` element of the candidate list; if every candidate is an error, return
the last one (the `err.unwrap()` of the Rust loop).  The empty-list default
is unreachable because the loop always runs at least the `i = 0` case. -/
def firstOk : List ParseResult → ParseResult
  | [] => .error ⟨none, none⟩
  | [r] => r
  | r :: rs =>
    match r with
    | .ok v => .ok v
    | .error _ => firstOk rs

/-- Body of the `Some(hole_idx)` branch of `with_holes`: match the part
before the hole, then try every split point `i` from `0` to the leftover
length in increasing order, accepting the first success and combining the
updates; `rec` is the recursive call on the part after the hole. -/
def holeStep (update : Bool) (pat : List String → List String → ParseResult)
    (rec : List String → ParseResult)
    (beforeHole : List String) (holeLine : String)
    (afterHole actual : List String) : ParseResult :=
  match pat beforeHole actual with
  | .error e => .error e
  | .ok (actual1, updatedBefore) =>
    firstOk ((List.range (actual1.length + 1)).map (fun i =>
      match rec (actual1.drop i) with
      | .error e => .error e
      | .ok (remaining, updatedAfter) =>
        .ok (remaining, combineUpdate update holeLine beforeHole afterHole
          (actual1.take i) updatedBefore updatedAfter)))

/-- `with_holes` from `src/pattern.rs`, with an explicit fuel for the
recursion on the part after the hole (the Rust recursion terminates because
that part is strictly shorter than `expected`; `expected.length` fuel always
suffices).  With fuel `0` and a hole present — which never happens starting
from sufficient fuel — the result is a sentinel error. -/
def with_holes_fuel (update : Bool) (pat : List String → List String → ParseResult) :
    Nat → List String → List String → ParseResult
  | 0, expected, actual =>
    match findHole (holeMarker update) expected with
    | none => pat expected actual
    | some _ => .error ⟨none, none⟩
  | fuel + 1, expected, actual =>
    match findHole (holeMarker update) expected with
    | none => pat expected actual
    | some (beforeHole, holeLine, afterHole) =>
      holeStep update pat (fun rest => with_holes_fuel update pat fuel afterHole rest)
        beforeHole holeLine afterHole actual

/-- `with_holes` from `src/pattern.rs` (fuel instantiated sufficiently). -/
def with_holes (update : Bool) (pat : List String → List String → ParseResult)
    (expected actual : List String) : ParseResult :=
  with_holes_fuel update pat expected.length expected actual

/-- `matchit` from `src/pattern.rs`: resolve `???` holes outermost, `...`
holes within, `match_lines` innermost; fail if any actual input is left. -/
def matchit (expected actual : List String) : Except ParseError (Option (List String)) :=
  match with_holes true (fun x y => with_holes false match_lines x y) expected actual with
  | .error e => .error e
  | .ok (remaining_input, updated) =>
    match remaining_input with
    | [] => .ok updated
    | got :: _ => .error ⟨none, some got⟩

/-! ## src/common.rs -/

/-- `LinesCow` from `src/common.rs`: a vector of lines which is either
borrowed or owned.  Borrowed and owned strings have the same content, so
both constructors carry a `List String`. -/
inductive LinesCow where
  | Borrowed (lines : List String)
  | Owned (lines : List String)
deriving DecidableEq, Repr

/-- `LinesCow::new`: a new, empty, borrowed list of lines. -/
def LinesCow.new : LinesCow := .Borrowed []

/-- `LinesCow::push_borrowed`: extend with borrowed lines; if the buffer is
owned the pushed lines are cloned (same content). -/
def LinesCow.push_borrowed : LinesCow → List String → LinesCow
  | .Borrowed x, lines => .Borrowed (x ++ lines)
  | .Owned x, lines => .Owned (x ++ lines)

/-- `LinesCow::push_owned`: if the buffer is borrowed, clone every line in
it into an owned buffer first, then push (the Rust code re-calls
`push_owned` on the now-owned buffer). -/
def LinesCow.push_owned : LinesCow → List String → LinesCow
  | .Borrowed x, lines => .Owned (x ++ lines)
  | .Owned x, lines => .Owned (x ++ lines)

/-- `LinesCow::maybe_owned`: `some lines` if owned, `none` if borrowed. -/
def LinesCow.maybe_owned : LinesCow → Option (List String)
  | .Owned x => some x
  | .Borrowed _ => none

/-- Whether a `LinesCow` is in the `Owned` state. -/
def LinesCow.isOwned : LinesCow → Bool
  | .Owned _ => true
  | .Borrowed _ => false

/-- One abstract push operation against a `LinesCow` buffer: either a
`push_borrowed` or a `push_owned` of the given lines. -/
inductive Push where
  | borrowed (lines : List String)
  | owned (lines : List String)
deriving DecidableEq, Repr

/-- The lines carried by a push. -/
def Push.lines : Push → List String
  | .borrowed ls => ls
  | .owned ls => ls

/-- Whether a push is a `push_owned`. -/
def Push.isOwnedPush : Push → Bool
  | .borrowed _ => false
  | .owned _ => true

/-- Apply one push operation to a buffer. -/
def applyPush (buf : LinesCow) : Push → LinesCow
  | .borrowed ls => buf.push_borrowed ls
  | .owned ls => buf.push_owned ls

/-- Apply a sequence of push operations from left to right. -/
def applyPushes (buf : LinesCow) (ps : List Push) : LinesCow :=
  ps.foldl applyPush buf

/-! ## src/lib.rs: session model and builder -/

/-- Compiled regexes are an external collaborator (the `regex` crate); a
compiled regex is identified with its pattern string. -/
abbrev Regex := String

/-- `TIMEOUT_MS` from `src/lib.rs`. -/
def TIMEOUT_MS : Nat := 10000

/-- `DEFAULT_PROMPT_CHAR` from `src/lib.rs`. -/
def DEFAULT_PROMPT_CHAR : String := ":"

/-- `ReplBlock` from `src/lib.rs`: prompt regex, prompt character and the
expected lines of one code block. -/
structure ReplBlock where
  prompt : Regex
  prompt_char : String
  expected : List String
deriving DecidableEq, Repr

/-- `Session` from `src/lib.rs`: the shell command and the ordered blocks. -/
structure Session where
  shell_cmd : String
  blocks : List ReplBlock
deriving DecidableEq, Repr

/-- `PandocBlock` from `src/lib.rs`, after `iter_code_blocks` has selected
the code blocks with a `repl-` class and extracted the session name (the
pandoc document model itself is an external collaborator). -/
structure PandocBlock where
  sessionName : String
  attrs : List (String × String)
  code : String
deriving DecidableEq, Repr

/-- The configuration errors raised by `get_sessions` (`anyhow` messages in
the Rust code, represented structurally); every constructor records the
name of the offending session. -/
inductive SessionError where
  | badPromptRegex (sessionName regexStr msg : String)
  | noCmd (sessionName : String)
  | noPrompt (sessionName : String)
  | cmdTwice (sessionName cmd : String)
  | noLastBlock (sessionName : String)
deriving DecidableEq, Repr

/-- The session name carried by a configuration error. -/
def SessionError.name : SessionError → String
  | .badPromptRegex n _ _ => n
  | .noCmd n => n
  | .noPrompt n => n
  | .cmdTwice n _ => n
  | .noLastBlock n => n

/-- Model of `attrs.iter().filter(|(x, _)| x == key).map(|(_, y)| y).next()`:
the value of the first attribute with the given key. -/
def findAttr (key : String) (attrs : List (String × String)) : Option String :=
  (attrs.find? (fun p => p.1 = key)).map (fun p => p.2)

/-- The sessions `HashMap` is modelled as an association list keyed by
session name (`get_sessions` only uses point lookups and point updates, so
the map's iteration order is irrelevant to it). -/
abbrev Sessions := List (String × Session)

/-- Point lookup in the sessions map. -/
def lookupSession (sessions : Sessions) (name : String) : Option Session :=
  (sessions.find? (fun p => p.1 = name)).map (fun p => p.2)

/-- Point update of an existing entry in the sessions map. -/
def updateSession (sessions : Sessions) (name : String) (s : Session) : Sessions :=
  sessions.map (fun p => if p.1 = name then (name, s) else p)

/-- One iteration of the loop in `get_sessions` (`src/lib.rs` lines 73-138)
for one code block: extract `cmd`/`prompt`/`prompt_char`, compile the prompt
regex (`newRegex` models `Regex::new`), then on a vacant entry demand `cmd`
and `prompt` and insert a one-block session, and on an occupied entry reject
a repeated `cmd` and append a block inheriting prompt and prompt character
from the last block.  The `noLastBlock` error models the
`blocks.last().unwrap()` panic, unreachable because every stored session has
at least one block. -/
def processBlock (newRegex : String → Except String Regex)
    (sessions : Sessions) (b : PandocBlock) : Except SessionError Sessions :=
  let shell_cmd := findAttr "cmd" b.attrs
  let promptResult : Except SessionError (Option Regex) :=
    match findAttr "prompt" b.attrs with
    | none => .ok none
    | some x =>
      match newRegex x with
      | .ok r => .ok (some r)
      | .error e => .error (.badPromptRegex b.sessionName x e)
  match promptResult with
  | .error e => .error e
  | .ok prompt =>
    let prompt_char := findAttr "prompt_char" b.attrs
    let expected := strLines b.code
    match lookupSession sessions b.sessionName with
    | none =>
      match shell_cmd with
      | none => .error (.noCmd b.sessionName)
      | some cmd =>
        match prompt with
        | none => .error (.noPrompt b.sessionName)
        | some prompt =>
          .ok (sessions ++ [(b.sessionName,
            ⟨cmd, [⟨prompt, prompt_char.getD DEFAULT_PROMPT_CHAR, expected⟩]⟩)])
    | some session =>
      match shell_cmd with
      | some cmd => .error (.cmdTwice b.sessionName cmd)
      | none =>
        match session.blocks.getLast? with
        | none => .error (.noLastBlock b.sessionName)
        | some last_block =>
          .ok (updateSession sessions b.sessionName
            ⟨session.shell_cmd, session.blocks ++
              [⟨prompt.getD last_block.prompt,
                prompt_char.getD last_block.prompt_char, expected⟩]⟩)

/-- `get_sessions` from `src/lib.rs`: fold `processBlock` over the repl code
blocks of the document, stopping at the first configuration error. -/
def get_sessions (newRegex : String → Except String Regex)
    (document : List PandocBlock) : Except SessionError Sessions :=
  document.foldlM (processBlock newRegex) []

/-! ## src/lib.rs: session driver -/

/-- `ExpectedPrompt` from `src/lib.rs`. -/
inductive ExpectedPrompt where
  | Fixed (s : String)
  | Flexible
  | Updatable
deriving DecidableEq, Repr

/-- `CmdInvokation` from `src/lib.rs`. -/
structure CmdInvokation where
  prompt : ExpectedPrompt
  cmd : String
  entire_prompt_line : String
  expected_output : List String
deriving DecidableEq, Repr

/-- `CmdInvokations` from `src/lib.rs`. -/
structure CmdInvokations where
  initial_output : List String
  cmd_invocations : List CmdInvokation
deriving DecidableEq, Repr

/-- Outcome of a Rust computation that can panic: either a panic with a
message or a normally produced value. -/
inductive PanicOr (α : Type) where
  | panics (msg : String)
  | value (a : α)
deriving DecidableEq, Repr

/-- `repl_block_to_cmd_invocations` from `src/lib.rs`: its body is
`unimplemented!()`, which panics unconditionally. -/
def repl_block_to_cmd_invocations (_repl_block : ReplBlock) : PanicOr CmdInvokations :=
  .panics "not implemented"

/-- The run-time errors of `run_sessions` (`anyhow::Result` errors): a
transport error propagated with `?` from `rexpect`, or a pattern mismatch
wrapping a matcher error. -/
inductive RunError where
  | transport (msg : String)
  | patternMismatch (e : ParseError)
deriving DecidableEq, Repr

/-- The external pseudo-terminal transport and regex engine used by
`run_sessions`: `rexpect::spawn`, `read_until` (returning the text before
the prompt and the matched prompt), `regex::escape` and `Regex::new`. -/
structure Transport (Process : Type) where
  spawn : String → Nat → Except String Process
  read_until : Process → Regex → Except String (String × String)
  regex_escape : String → String
  regex_new : String → Except String Regex

/-- The `reduce(|x, y| x + "\n" + &y)` in `run_sessions`: join lines with
newlines, `none` on an empty list. -/
def reduceJoin : List String → Option String
  | [] => none
  | l :: ls => some (ls.foldl (fun a b => a ++ "\n" ++ b) l)

/-- The inner loop of `run_sessions` over the `CmdInvokation`s of one block
(`src/lib.rs` lines 206-240): build the prompt regex (`unwrap`ping the
compilation for a `Fixed` prompt), read until the prompt, match the text
before the prompt against `initial_output`, push the (possibly updated)
expected lines and the prompt line into the buffer, and recurse.  Note that
the Rust loop matches the same `initial_output` on every iteration and
never uses `expected_output`. -/
def runInvocations {Process : Type} (t : Transport Process) (proc : Process)
    (repl_block : ReplBlock) (initial_output : List String) :
    List CmdInvokation → LinesCow → PanicOr (Except RunError LinesCow)
  | [], buf => .value (.ok buf)
  | inv :: rest, buf =>
    let promptRegex : PanicOr Regex :=
      match inv.prompt with
      | .Fixed x =>
        match t.regex_new (t.regex_escape x) with
        | .ok r => .value r
        | .error e => .panics e
      | .Flexible => .value repl_block.prompt
      | .Updatable => .value repl_block.prompt
    match promptRegex with
    | .panics m => .panics m
    | .value prompt_regex =>
      match t.read_until proc prompt_regex with
      | .error e => .value (.error (.transport e))
      | .ok (before_prompt, actual_prompt) =>
        let read_lines := strLines before_prompt
        match matchit initial_output read_lines with
        | .error e => .value (.error (.patternMismatch e))
        | .ok updated =>
          let buf := match updated with
            | some updatedLines => buf.push_owned updatedLines
            | none => buf.push_borrowed initial_output
          let buf := match inv.prompt with
            | .Updatable => buf.push_owned [actual_prompt ++ inv.cmd]
            | .Flexible => buf.push_borrowed [inv.entire_prompt_line]
            | .Fixed _ => buf.push_borrowed [inv.entire_prompt_line]
          runInvocations t proc repl_block initial_output rest buf

/-- The loop of `run_sessions` over the blocks of one session
(`src/lib.rs` lines 196-247): convert the block to command invocations
(which panics, as `repl_block_to_cmd_invocations` is unimplemented), run
them, and record `maybe_owned` joined with newlines (whose `unwrap` panics
on an empty owned buffer). -/
def runBlocks {Process : Type} (t : Transport Process) (proc : Process) :
    List ReplBlock → PanicOr (Except RunError (List (Option String)))
  | [] => .value (.ok [])
  | repl_block :: rest =>
    match repl_block_to_cmd_invocations repl_block with
    | .panics m => .panics m
    | .value ci =>
      match runInvocations t proc repl_block ci.initial_output ci.cmd_invocations LinesCow.new with
      | .panics m => .panics m
      | .value (.error e) => .value (.error e)
      | .value (.ok buf) =>
        let entry : PanicOr (Option String) :=
          match buf.maybe_owned with
          | none => .value none
          | some owned =>
            match reduceJoin owned with
            | none => .panics "called Option::unwrap on a None value"
            | some joined => .value (some joined)
        match entry with
        | .panics m => .panics m
        | .value e =>
          match runBlocks t proc rest with
          | .panics m => .panics m
          | .value (.error err) => .value (.error err)
          | .value (.ok tailResults) => .value (.ok (e :: tailResults))

/-- `run_sessions` from `src/lib.rs`: for every session spawn its process
(propagating a spawn failure as an error) and run its blocks; collect per
session the per-block update results.  The `HashMap` is modelled as an
association list processed in order. -/
def run_sessions {Process : Type} (t : Transport Process) :
    Sessions → PanicOr (Except RunError (List (String × List (Option String))))
  | [] => .value (.ok [])
  | (session_name, session) :: rest =>
    match t.spawn session.shell_cmd TIMEOUT_MS with
    | .error e => .value (.error (.transport e))
    | .ok proc =>
      match runBlocks t proc session.blocks with
      | .panics m => .panics m
      | .value (.error e) => .value (.error e)
      | .value (.ok blockResults) =>
        match run_sessions t rest with
        | .panics m => .panics m
        | .value (.error e) => .value (.error e)
        | .value (.ok restResults) =>
          .value (.ok ((session_name, blockResults) :: restResults))

/-! ## Helper lemmas about the matcher -/

theorem firstOk_singleton (r : ParseResult) : firstOk [r] = r := by
  cases r <;> rfl

theorem firstOk_ok_cons (v : List String × Option (List String)) (rs : List ParseResult) :
    firstOk (.ok v :: rs) = .ok v := by
  cases rs <;> simp [firstOk]

theorem firstOk_error_cons (e : ParseError) (rs : List ParseResult) (h : rs ≠ []) :
    firstOk (.error e :: rs) = firstOk rs := by
  cases rs with
  | nil => exact absurd rfl h
  | cons r rest => simp [firstOk]

theorem firstOk_mem_of_ok (l : List ParseResult) (v : List String × Option (List String))
    (h : firstOk l = .ok v) : Except.ok v ∈ l := by
  induction l with
  | nil => simp [firstOk] at h
  | cons r rs ih =>
    cases rs with
    | nil =>
      rw [firstOk_singleton] at h
      simp [h]
    | cons r2 rs2 =>
      cases r with
      | ok w =>
        rw [firstOk_ok_cons] at h
        simp at h
        simp [h]
      | error e =>
        rw [firstOk_error_cons e _ (by simp)] at h
        exact List.mem_cons_of_mem _ (ih h)

theorem firstOk_error_mem (l : List ParseResult) (e : ParseError)
    (hne : l ≠ []) (h : firstOk l = .error e) : Except.error e ∈ l := by
  induction l with
  | nil => exact absurd rfl hne
  | cons r rs ih =>
    cases rs with
    | nil =>
      rw [firstOk_singleton] at h
      simp [h]
    | cons r2 rs2 =>
      cases r with
      | ok w => rw [firstOk_ok_cons] at h; simp at h
      | error e2 =>
        rw [firstOk_error_cons e2 _ (by simp)] at h
        exact List.mem_cons_of_mem _ (ih (by simp) h)

theorem firstOk_append_last (l : List ParseResult) (x : ParseResult)
    (h : ∀ r ∈ l, r.isOk = false) : firstOk (l ++ [x]) = x := by
  induction l with
  | nil => exact firstOk_singleton x
  | cons r rs ih =>
    have hr : r.isOk = false := h r (by simp)
    obtain ⟨e, rfl⟩ : ∃ e, r = .error e := by
      cases r with
      | ok v => simp [Except.isOk, Except.toBool] at hr
      | error e => exact ⟨e, rfl⟩
    rw [List.cons_append, firstOk_error_cons e _ (by simp)]
    exact ih (fun r hm => h r (List.mem_cons_of_mem _ hm))

theorem match_lines_update_none :
    ∀ expected actual rem upd, match_lines expected actual = .ok (rem, upd) → upd = none := by
  intro expected
  induction expected with
  | nil =>
    intro actual rem upd h
    simp only [match_lines, Except.ok.injEq, Prod.mk.injEq] at h
    exact h.2.symm
  | cons e es ih =>
    intro actual rem upd h
    cases actual with
    | nil => simp [match_lines] at h
    | cons a rest =>
      simp only [match_lines] at h
      split at h
      · simp at h
      · exact ih rest rem upd h

theorem match_lines_error_expected :
    ∀ expected actual err, match_lines expected actual = .error err → err.expected ≠ none := by
  intro expected
  induction expected with
  | nil => intro actual err h; simp [match_lines] at h
  | cons e es ih =>
    intro actual err h
    cases actual with
    | nil =>
      simp only [match_lines, Except.error.injEq] at h
      simp [← h]
    | cons a rest =>
      simp only [match_lines] at h
      split at h
      · simp only [Except.error.injEq] at h
        simp [← h]
      · exact ih rest err h

theorem match_lines_of_map_trim_end_eq :
    ∀ expected actual, expected.map trim_end = actual.map trim_end →
      match_lines expected actual = .ok ([], none) := by
  intro expected
  induction expected with
  | nil =>
    intro actual h
    cases actual with
    | nil => rfl
    | cons a rest => simp at h
  | cons e es ih =>
    intro actual h
    cases actual with
    | nil => simp at h
    | cons a rest =>
      simp only [List.map_cons, List.cons.injEq] at h
      have hstep : match_lines (e :: es) (a :: rest) = match_lines es rest := by
        simp [match_lines, h.1]
      rw [hstep]
      exact ih rest h.2

theorem findHole_nil (hole : String) : findHole hole [] = none := rfl

theorem findHole_none_of_no_hole (hole : String) :
    ∀ lines, (∀ l ∈ lines, trim l ≠ hole) → findHole hole lines = none := by
  intro lines
  induction lines with
  | nil => intro _; rfl
  | cons l ls ih =>
    intro h
    simp only [findHole, h l (by simp), if_false, ite_false]
    rw [ih (fun x hx => h x (List.mem_cons_of_mem _ hx))]
    rfl

theorem findHole_decomp (hole : String) :
    ∀ lines beforeHole holeLine afterHole,
      findHole hole lines = some (beforeHole, holeLine, afterHole) →
      lines = beforeHole ++ holeLine :: afterHole ∧ trim holeLine = hole := by
  intro lines
  induction lines with
  | nil => intro b hl a h; simp [findHole] at h
  | cons l ls ih =>
    intro b hl a h
    simp only [findHole] at h
    split at h
    · rename_i htrim
      simp only [Option.some.injEq, Prod.mk.injEq] at h
      obtain ⟨h1, h2, h3⟩ := h
      subst h1; subst h2; subst h3
      exact ⟨rfl, htrim⟩
    · cases hfind : findHole hole ls with
      | none => rw [hfind] at h; simp at h
      | some r =>
        rw [hfind] at h
        obtain ⟨r1, r2, r3⟩ := r
        simp at h
        obtain ⟨h1, h2, h3⟩ := h
        obtain ⟨hd, ht⟩ := ih r1 r2 r3 hfind
        subst h1; subst h2; subst h3
        exact ⟨by rw [hd]; rfl, ht⟩

theorem findHole_length (hole : String) (lines beforeHole afterHole : List String)
    (holeLine : String) (h : findHole hole lines = some (beforeHole, holeLine, afterHole)) :
    lines.length = beforeHole.length + afterHole.length + 1 := by
  obtain ⟨hd, _⟩ := findHole_decomp hole lines beforeHole holeLine afterHole h
  rw [hd]
  simp
  omega

theorem with_holes_fuel_no_hole (u : Bool) (p : List String → List String → ParseResult)
    (expected actual : List String) (h : findHole (holeMarker u) expected = none) :
    ∀ fuel, with_holes_fuel u p fuel expected actual = p expected actual := by
  intro fuel
  cases fuel <;> simp [with_holes_fuel, h]

theorem with_holes_fuel_hole (u : Bool) (p : List String → List String → ParseResult)
    (expected actual beforeHole afterHole : List String) (holeLine : String) (fuel : Nat)
    (h : findHole (holeMarker u) expected = some (beforeHole, holeLine, afterHole)) :
    with_holes_fuel u p (fuel + 1) expected actual =
      holeStep u p (fun rest => with_holes_fuel u p fuel afterHole rest)
        beforeHole holeLine afterHole actual := by
  simp [with_holes_fuel, h]

theorem holeStep_congr (u : Bool) (p : List String → List String → ParseResult)
    (rec1 rec2 : List String → ParseResult) (beforeHole : List String) (holeLine : String)
    (afterHole actual : List String) (h : ∀ x, rec1 x = rec2 x) :
    holeStep u p rec1 beforeHole holeLine afterHole actual =
      holeStep u p rec2 beforeHole holeLine afterHole actual := by
  simp only [holeStep]
  cases p beforeHole actual with
  | error e => rfl
  | ok v =>
    obtain ⟨actual1, updatedBefore⟩ := v
    dsimp only
    congr 1
    apply List.map_congr_left
    intro i _
    rw [h (actual1.drop i)]

theorem with_holes_fuel_congr (u : Bool) (p : List String → List String → ParseResult) :
    ∀ fuel1 fuel2 expected actual, expected.length ≤ fuel1 → expected.length ≤ fuel2 →
      with_holes_fuel u p fuel1 expected actual = with_holes_fuel u p fuel2 expected actual := by
  intro fuel1
  induction fuel1 with
  | zero =>
    intro fuel2 expected actual h1 _
    have : expected = [] := List.length_eq_zero.mp (Nat.le_zero.mp h1)
    subst this
    rw [with_holes_fuel_no_hole u p [] actual (findHole_nil _) 0,
      with_holes_fuel_no_hole u p [] actual (findHole_nil _) fuel2]
  | succ f1 ih =>
    intro fuel2 expected actual h1 h2
    cases hfind : findHole (holeMarker u) expected with
    | none =>
      rw [with_holes_fuel_no_hole u p expected actual hfind,
        with_holes_fuel_no_hole u p expected actual hfind]
    | some r =>
      obtain ⟨beforeHole, holeLine, afterHole⟩ := r
      have hlen := findHole_length _ _ _ _ _ hfind
      cases fuel2 with
      | zero => omega
      | succ f2 =>
        rw [with_holes_fuel_hole u p expected actual beforeHole afterHole holeLine f1 hfind,
          with_holes_fuel_hole u p expected actual beforeHole afterHole holeLine f2 hfind]
        apply holeStep_congr
        intro x
        exact ih f2 afterHole x (by omega) (by omega)

theorem with_holes_fuel_eq_with_holes (u : Bool) (p : List String → List String → ParseResult)
    (fuel : Nat) (expected actual : List String) (h : expected.length ≤ fuel) :
    with_holes_fuel u p fuel expected actual = with_holes u p expected actual :=
  with_holes_fuel_congr u p fuel expected.length expected actual h le_rfl

theorem combineUpdate_none_none (u : Bool) (holeLine : String)
    (beforeHole afterHole consumed : List String) :
    combineUpdate u holeLine beforeHole afterHole consumed none none = none := rfl

theorem with_holes_fuel_update_none (u : Bool) (p : List String → List String → ParseResult)
    (hp : ∀ e a rem upd, p e a = .ok (rem, upd) → upd = none) :
    ∀ fuel expected actual rem upd,
      with_holes_fuel u p fuel expected actual = .ok (rem, upd) → upd = none := by
  intro fuel
  induction fuel with
  | zero =>
    intro expected actual rem upd h
    cases hfind : findHole (holeMarker u) expected with
    | none =>
      rw [with_holes_fuel_no_hole u p expected actual hfind 0] at h
      exact hp expected actual rem upd h
    | some r => simp [with_holes_fuel, hfind] at h
  | succ f ih =>
    intro expected actual rem upd h
    cases hfind : findHole (holeMarker u) expected with
    | none =>
      rw [with_holes_fuel_no_hole u p expected actual hfind (f + 1)] at h
      exact hp expected actual rem upd h
    | some r =>
      obtain ⟨beforeHole, holeLine, afterHole⟩ := r
      rw [with_holes_fuel_hole u p expected actual beforeHole afterHole holeLine f hfind] at h
      simp only [holeStep] at h
      cases hpat : p beforeHole actual with
      | error e => rw [hpat] at h; simp at h
      | ok v =>
        obtain ⟨actual1, updatedBefore⟩ := v
        rw [hpat] at h
        dsimp only at h
        have hub : updatedBefore = none := hp _ _ _ _ hpat
        subst hub
        have hmem := firstOk_mem_of_ok _ _ h
        rw [List.mem_map] at hmem
        obtain ⟨i, _, hfi⟩ := hmem
        cases hrec : with_holes_fuel u p f afterHole (actual1.drop i) with
        | error e => rw [hrec] at hfi; simp at hfi
        | ok w =>
          obtain ⟨remaining, updatedAfter⟩ := w
          rw [hrec] at hfi
          have hua : updatedAfter = none := ih _ _ _ _ hrec
          subst hua
          simp only [Except.ok.injEq, Prod.mk.injEq] at hfi
          rw [← hfi.2]
          exact combineUpdate_none_none u holeLine beforeHole afterHole (actual1.take i)

theorem matchit_ok_update_none (expected actual : List String) (r : Option (List String))
    (h : matchit expected actual = .ok r) : r = none := by
  have hinner : ∀ e a rem upd,
      (fun x y => with_holes false match_lines x y) e a = .ok (rem, upd) → upd = none := by
    intro e a rem upd hh
    simp only [with_holes] at hh
    exact with_holes_fuel_update_none false match_lines match_lines_update_none
      e.length e a rem upd hh
  simp only [matchit] at h
  cases houter : with_holes true (fun x y => with_holes false match_lines x y) expected actual with
  | error e => rw [houter] at h; simp at h
  | ok v =>
    obtain ⟨remaining, updated⟩ := v
    rw [houter] at h
    cases remaining with
    | nil =>
      dsimp only at h
      simp only [Except.ok.injEq] at h
      subst h
      simp only [with_holes] at houter
      exact with_holes_fuel_update_none true _ hinner expected.length expected actual _ _ houter
    | cons got rest => simp at h

/-- Well-formedness of a `ParseError`: it is never the (unreachable in the
source) combination of no expected line and no received line. -/
def errShapeOk (e : ParseError) : Prop := e.expected ≠ none ∨ e.got ≠ none

theorem with_holes_fuel_error_shape (u : Bool) (p : List String → List String → ParseResult)
    (hp : ∀ e a err, p e a = .error err → errShapeOk err) :
    ∀ fuel expected actual err, expected.length ≤ fuel →
      with_holes_fuel u p fuel expected actual = .error err → errShapeOk err := by
  intro fuel
  induction fuel with
  | zero =>
    intro expected actual err hlen h
    have : expected = [] := List.length_eq_zero.mp (Nat.le_zero.mp hlen)
    subst this
    rw [with_holes_fuel_no_hole u p [] actual (findHole_nil _) 0] at h
    exact hp [] actual err h
  | succ f ih =>
    intro expected actual err hlen h
    cases hfind : findHole (holeMarker u) expected with
    | none =>
      rw [with_holes_fuel_no_hole u p expected actual hfind (f + 1)] at h
      exact hp expected actual err h
    | some r =>
      obtain ⟨beforeHole, holeLine, afterHole⟩ := r
      have hdec := findHole_length _ _ _ _ _ hfind
      rw [with_holes_fuel_hole u p expected actual beforeHole afterHole holeLine f hfind] at h
      simp only [holeStep] at h
      cases hpat : p beforeHole actual with
      | error e =>
        rw [hpat] at h
        dsimp only at h
        simp only [Except.error.injEq] at h
        subst h
        exact hp _ _ _ hpat
      | ok v =>
        obtain ⟨actual1, updatedBefore⟩ := v
        rw [hpat] at h
        dsimp only at h
        have hne : (List.range (actual1.length + 1)).map (fun i =>
            match with_holes_fuel u p f afterHole (actual1.drop i) with
            | .error e => (.error e : ParseResult)
            | .ok (remaining, updatedAfter) =>
              .ok (remaining, combineUpdate u holeLine beforeHole afterHole
                (actual1.take i) updatedBefore updatedAfter)) ≠ [] := by
          simp [List.range_succ]
        have hmem := firstOk_error_mem _ _ hne h
        rw [List.mem_map] at hmem
        obtain ⟨i, _, hfi⟩ := hmem
        cases hrec : with_holes_fuel u p f afterHole (actual1.drop i) with
        | ok w => rw [hrec] at hfi; cases w; simp at hfi
        | error e2 =>
          rw [hrec] at hfi
          simp only [Except.error.injEq] at hfi
          subst hfi
          exact ih afterHole (actual1.drop i) _ (by omega) hrec

theorem matchit_error_shape (expected actual : List String) (err : ParseError)
    (h : matchit expected actual = .error err) : errShapeOk err := by
  have hinner : ∀ e a err2,
      (fun x y => with_holes false match_lines x y) e a = .error err2 → errShapeOk err2 := by
    intro e a err2 hh
    simp only [with_holes] at hh
    exact with_holes_fuel_error_shape false match_lines
      (fun e3 a3 err3 h3 => Or.inl (match_lines_error_expected e3 a3 err3 h3))
      e.length e a err2 le_rfl hh
  simp only [matchit] at h
  cases houter : with_holes true (fun x y => with_holes false match_lines x y) expected actual with
  | error e =>
    rw [houter] at h
    simp only [Except.error.injEq] at h
    subst h
    simp only [with_holes] at houter
    exact with_holes_fuel_error_shape true _ hinner expected.length expected actual _ le_rfl houter
  | ok v =>
    obtain ⟨remaining, updated⟩ := v
    rw [houter] at h
    cases remaining with
    | nil => simp at h
    | cons got rest =>
      dsimp only at h
      simp only [Except.error.injEq] at h
      subst h
      exact Or.inr (by simp)

theorem matchit_of_no_holes_map_trim_end_eq (expected actual : List String)
    (hexp : ∀ l ∈ expected, trim l ≠ "..." ∧ trim l ≠ "???")
    (heq : expected.map trim_end = actual.map trim_end) :
    matchit expected actual = .ok none := by
  have hq : findHole (holeMarker true) expected = none :=
    findHole_none_of_no_hole _ _ (fun l hl => by simpa [holeMarker] using (hexp l hl).2)
  have hd : findHole (holeMarker false) expected = none :=
    findHole_none_of_no_hole _ _ (fun l hl => by simpa [holeMarker] using (hexp l hl).1)
  simp only [matchit, with_holes]
  rw [with_holes_fuel_no_hole true _ expected actual hq expected.length]
  rw [with_holes_fuel_no_hole false match_lines expected actual hd expected.length]
  rw [match_lines_of_map_trim_end_eq expected actual heq]

/-! ## Helper lemmas about `LinesCow` -/

theorem applyPushes_nil (buf : LinesCow) : applyPushes buf [] = buf := rfl

theorem applyPushes_cons (buf : LinesCow) (pp : Push) (ps : List Push) :
    applyPushes buf (pp :: ps) = applyPushes (applyPush buf pp) ps := rfl

theorem applyPushes_owned : ∀ (ps : List Push) (acc : List String),
    applyPushes (.Owned acc) ps = .Owned (acc ++ (ps.map Push.lines).flatten) := by
  intro ps
  induction ps with
  | nil => intro acc; simp [applyPushes_nil]
  | cons pp ps ih =>
    intro acc
    rw [applyPushes_cons]
    cases pp with
    | borrowed ls =>
      show applyPushes (.Owned (acc ++ ls)) ps = _
      rw [ih]
      simp [Push.lines]
    | owned ls =>
      show applyPushes (.Owned (acc ++ ls)) ps = _
      rw [ih]
      simp [Push.lines]

theorem applyPushes_borrowed_all : ∀ (ps : List Push) (acc : List String),
    (∀ pp ∈ ps, pp.isOwnedPush = false) →
    applyPushes (.Borrowed acc) ps = .Borrowed (acc ++ (ps.map Push.lines).flatten) := by
  intro ps
  induction ps with
  | nil => intro acc _; simp [applyPushes_nil]
  | cons pp ps ih =>
    intro acc h
    rw [applyPushes_cons]
    cases pp with
    | borrowed ls =>
      show applyPushes (.Borrowed (acc ++ ls)) ps = _
      rw [ih (acc ++ ls) (fun q hq => h q (List.mem_cons_of_mem _ hq))]
      simp [Push.lines]
    | owned ls => simpa [Push.isOwnedPush] using h _ (List.mem_cons_self _ _)

theorem applyPushes_borrowed_some_owned : ∀ (ps : List Push) (acc : List String),
    (∃ pp ∈ ps, pp.isOwnedPush = true) →
    applyPushes (.Borrowed acc) ps = .Owned (acc ++ (ps.map Push.lines).flatten) := by
  intro ps
  induction ps with
  | nil => intro acc h; simp at h
  | cons pp ps ih =>
    intro acc h
    rw [applyPushes_cons]
    cases pp with
    | owned ls =>
      show applyPushes (.Owned (acc ++ ls)) ps = _
      rw [applyPushes_owned]
      simp [Push.lines]
    | borrowed ls =>
      show applyPushes (.Borrowed (acc ++ ls)) ps = _
      obtain ⟨q, hq, hqo⟩ := h
      rcases List.mem_cons.mp hq with hq1 | hq2
      · subst hq1; simp [Push.isOwnedPush] at hqo
      · rw [ih (acc ++ ls) ⟨q, hq2, hqo⟩]
        simp [Push.lines]

theorem applyPush_isOwned (buf : LinesCow) (pp : Push) (h : buf.isOwned = true) :
    (applyPush buf pp).isOwned = true := by
  cases buf with
  | Borrowed x => simp [LinesCow.isOwned] at h
  | Owned x =>
    cases pp <;> simp [applyPush, LinesCow.push_borrowed, LinesCow.push_owned, LinesCow.isOwned]

theorem applyPushes_isOwned : ∀ (ps : List Push) (buf : LinesCow), buf.isOwned = true →
    (applyPushes buf ps).isOwned = true := by
  intro ps
  induction ps with
  | nil => intro buf h; simpa [applyPushes_nil] using h
  | cons pp ps ih =>
    intro buf h
    rw [applyPushes_cons]
    exact ih _ (applyPush_isOwned buf pp h)

/-! ## The claims -/

/-- C1: the spec claims a satisfied capture-hole rewrites the pattern, in
particular `matchit(["a","???","z"], ["a","p","q","z"]) == Ok(Some(["a","p","q","z"]))`.
The code disagrees with the spec and with its own module documentation
("lines only consisting of `???` ... update the expected lines with the
actual lines"): the `(None, None)` arm of the hole-combination step in
`with_holes` discards the consumed lines, so this call returns `Ok(None)`
and in particular not `Ok(Some(["a","p","q","z"]))`. -/
theorem c1_capture_hole_returns_no_update :
    matchit ["a", "???", "z"] ["a", "p", "q", "z"] = .ok none ∧
    matchit ["a", "???", "z"] ["a", "p", "q", "z"] ≠ .ok (some ["a", "p", "q", "z"]) :=
  ⟨by decide, by decide⟩

/-- C2: the spec claims `matchit(["...","b","...","b"], ["b","b","b"])`
succeeds (satisfiable with the first `...` consuming zero lines).  The code
disagrees: the hole loop accepts the first split whose recursive match
succeeds without requiring the remainder to be consumed, and the
all-input-consumed check at the top of `matchit` does not backtrack, so the
call fails with `expected end of input, got "b"`. -/
theorem c2_minimal_consumption_example_errors :
    matchit ["...", "b", "...", "b"] ["b", "b", "b"] = .error ⟨none, some "b"⟩ := by decide

/-- C3: whenever `matchit` returns `Ok`, the result is `Ok(None)`:
`match_lines` never requests an update and the hole-combination step maps
the `(None, None)` case to `None` for both hole kinds, so no input ever
produces `Ok(Some(lines))`. -/
theorem c3_matchit_ok_always_none (expected actual : List String) (r : Option (List String))
    (h : matchit expected actual = .ok r) : r = none :=
  matchit_ok_update_none expected actual r h

/-- Witness for C3 at a concrete input exercising a capture-hole. -/
theorem c3_witness :
    matchit ["a", "???", "z"] ["a", "x", "z"] = .ok none ∧ (none : Option (List String)) = none :=
  ⟨by decide, c3_matchit_ok_always_none ["a", "???", "z"] ["a", "x", "z"] none (by decide)⟩

/-- C4: a `...` line matches zero or more arbitrary lines and never causes
an update: `matchit(["a","...","z"], ["a","p","q","z"]) == Ok(None)` and
`matchit(["a","...","z"], ["a","z"]) == Ok(None)`. -/
theorem c4_skip_hole_examples :
    matchit ["a", "...", "z"] ["a", "p", "q", "z"] = .ok none ∧
    matchit ["a", "...", "z"] ["a", "z"] = .ok none :=
  ⟨by decide, by decide⟩

/-- C5: for every pair of hole-free line sequences of equal length whose
corresponding lines are equal after trimming trailing whitespace (stated as
equality of the `trim_end` images, which forces equal lengths), `matchit`
returns `Ok(None)`. -/
theorem c5_exact_match_trailing_whitespace (expected actual : List String)
    (hexp : ∀ l ∈ expected, trim l ≠ "..." ∧ trim l ≠ "???")
    (_hact : ∀ l ∈ actual, trim l ≠ "..." ∧ trim l ≠ "???")
    (heq : expected.map trim_end = actual.map trim_end) :
    matchit expected actual = .ok none :=
  matchit_of_no_holes_map_trim_end_eq expected actual hexp heq

/-- Witness for C5: `matchit(["a","b"], ["a","b"]) == Ok(None)` via lines
that differ only in trailing whitespace. -/
theorem c5_witness : matchit ["a", "b "] ["a", "b"] = .ok none :=
  c5_exact_match_trailing_whitespace ["a", "b "] ["a", "b"] (by decide) (by decide) (by decide)

/-- C6: every `matchit` failure carries one of the three documented shapes
(expected line vs actual line, expected line vs end of input, or expected
end of input vs unconsumed line) — i.e. never both fields `None` — and the
two pinpointing examples hold. -/
theorem c6_error_shapes :
    (∀ expected actual err, matchit expected actual = .error err →
      err.expected ≠ none ∨ err.got ≠ none)
    ∧ matchit ["a", "b"] ["a", "x"] = .error ⟨some "b", some "x"⟩
    ∧ matchit ["a"] ["a", "extra"] = .error ⟨none, some "extra"⟩ :=
  ⟨fun expected actual err h => matchit_error_shape expected actual err h, by decide, by decide⟩

/-- Witness for C6 at the concrete mismatch example. -/
theorem c6_witness :
    (⟨some "b", some "x"⟩ : ParseError).expected ≠ none ∨
    (⟨some "b", some "x"⟩ : ParseError).got ≠ none :=
  c6_error_shapes.1 ["a", "b"] ["a", "x"] ⟨some "b", some "x"⟩ (by decide)

/-- C7: when the expected pattern contains a hole (of either kind) and no
split point from `0` to the leftover length lets the rest of the pattern
match, `with_holes` fails with the error of the last attempted split, the
one at `i` equal to the leftover length. -/
theorem c7_last_split_error (u : Bool) (p : List String → List String → ParseResult)
    (expected actual beforeHole afterHole actual1 : List String)
    (holeLine : String) (updatedBefore : Option (List String)) (elast : ParseError)
    (hsplit : findHole (holeMarker u) expected = some (beforeHole, holeLine, afterHole))
    (hbefore : p beforeHole actual = .ok (actual1, updatedBefore))
    (hall : ∀ i, i ≤ actual1.length →
      (with_holes u p afterHole (actual1.drop i)).isOk = false)
    (hlast : with_holes u p afterHole (actual1.drop actual1.length) = .error elast) :
    with_holes u p expected actual = .error elast := by
  have hlen := findHole_length _ _ _ _ _ hsplit
  simp only [with_holes]
  rw [hlen]
  rw [with_holes_fuel_hole u p expected actual beforeHole afterHole holeLine _ hsplit]
  simp only [holeStep, hbefore]
  rw [List.range_succ, List.map_append, List.map_cons, List.map_nil]
  rw [firstOk_append_last]
  · have h2 : with_holes_fuel u p (beforeHole.length + afterHole.length) afterHole [] =
        .error elast := by
      rw [with_holes_fuel_eq_with_holes u p _ _ _ (by omega)]
      rw [List.drop_length] at hlast
      exact hlast
    simp [h2]
  · intro r hr
    rw [List.mem_map] at hr
    obtain ⟨i, hi, hfr⟩ := hr
    have hi2 : i ≤ actual1.length := Nat.le_of_lt (List.mem_range.mp hi)
    have hik := hall i hi2
    cases hrec : with_holes_fuel u p (beforeHole.length + afterHole.length) afterHole
        (actual1.drop i) with
    | error e => rw [← hfr]; simp [hrec, Except.isOk, Except.toBool]
    | ok w =>
      rw [with_holes_fuel_eq_with_holes u p _ _ _ (by omega)] at hrec
      rw [hrec] at hik
      simp [Except.isOk, Except.toBool] at hik

/-- Witness for C7: the skip pass over `["...","z"]` against `["p","q"]`
fails at every split, and the overall error is the one of the last split
`i = 2` (expected `"z"`, got end of input). -/
theorem c7_witness :
    with_holes false match_lines ["...", "z"] ["p", "q"] = .error ⟨some "z", none⟩ :=
  c7_last_split_error false match_lines ["...", "z"] ["p", "q"] [] ["z"] ["p", "q"]
    "..." none ⟨some "z", none⟩ (by decide) (by decide) (by decide) (by decide)

/-- C8: a `LinesCow` into which only borrowed lines are pushed stays
borrowed (`maybe_owned = none`); an owned buffer stays owned under every
push sequence; once any owned push occurs the buffer is owned and
`maybe_owned` returns the full accumulated lines in push order, identical
to the content of an always-owned buffer fed the same pushes. -/
theorem c8_linescow_promotion :
    (∀ ps : List Push, (∀ pp ∈ ps, pp.isOwnedPush = false) →
      (applyPushes LinesCow.new ps).maybe_owned = none)
    ∧ (∀ (buf : LinesCow) (ps : List Push), buf.isOwned = true →
      (applyPushes buf ps).isOwned = true)
    ∧ (∀ ps : List Push, (∃ pp ∈ ps, pp.isOwnedPush = true) →
      (applyPushes LinesCow.new ps).maybe_owned = some ((ps.map Push.lines).flatten))
    ∧ (∀ ps : List Push, applyPushes (.Owned []) ps = .Owned ((ps.map Push.lines).flatten)) := by
  refine ⟨?_, ?_, ?_, ?_⟩
  · intro ps h
    rw [show LinesCow.new = .Borrowed [] from rfl, applyPushes_borrowed_all ps [] h]
    rfl
  · intro buf ps h
    exact applyPushes_isOwned ps buf h
  · intro ps h
    rw [show LinesCow.new = .Borrowed [] from rfl, applyPushes_borrowed_some_owned ps [] h]
    rfl
  · intro ps
    rw [applyPushes_owned ps []]
    rfl

/-- Witness for C8: concrete borrowed-only and mixed push sequences. -/
theorem c8_witness :
    (applyPushes LinesCow.new [.borrowed ["a"], .borrowed ["b"]]).maybe_owned = none ∧
    (applyPushes LinesCow.new
      [.borrowed ["a"], .owned ["b"], .borrowed ["c"]]).maybe_owned = some ["a", "b", "c"] :=
  ⟨c8_linescow_promotion.1 [.borrowed ["a"], .borrowed ["b"]] (by decide),
   c8_linescow_promotion.2.2.1 [.borrowed ["a"], .owned ["b"], .borrowed ["c"]]
     ⟨.owned ["b"], by decide, by decide⟩⟩

/-- C9: `get_sessions` fails with an error naming the offending session when
the first block of a session lacks `cmd` or lacks `prompt`, when `cmd` is
given a second time in the same session, or when a prompt regex fails to
compile; and a later block omitting `prompt` or `prompt_char` inherits the
most recently specified values, `prompt_char` defaulting to `":"` at the
start of a session.  Stated over `processBlock`, the loop body of
`get_sessions`, together with the propagation of a first-block error to
`get_sessions` itself. -/
theorem c9_get_sessions_errors_and_inheritance :
    (∀ (newRegex : String → Except String Regex) (b : PandocBlock)
        (rest : List PandocBlock) (e : SessionError),
      processBlock newRegex [] b = .error e →
      get_sessions newRegex (b :: rest) = .error e)
    ∧ (∀ (newRegex : String → Except String Regex) (sessions : Sessions) (b : PandocBlock),
      lookupSession sessions b.sessionName = none →
      findAttr "cmd" b.attrs = none →
      ∃ e, processBlock newRegex sessions b = .error e ∧ e.name = b.sessionName)
    ∧ (∀ (newRegex : String → Except String Regex) (sessions : Sessions) (b : PandocBlock)
        (c : String),
      lookupSession sessions b.sessionName = none →
      findAttr "cmd" b.attrs = some c →
      findAttr "prompt" b.attrs = none →
      ∃ e, processBlock newRegex sessions b = .error e ∧ e.name = b.sessionName)
    ∧ (∀ (newRegex : String → Except String Regex) (sessions : Sessions) (b : PandocBlock)
        (sess : Session) (c : String),
      lookupSession sessions b.sessionName = some sess →
      findAttr "cmd" b.attrs = some c →
      ∃ e, processBlock newRegex sessions b = .error e ∧ e.name = b.sessionName)
    ∧ (∀ (newRegex : String → Except String Regex) (sessions : Sessions) (b : PandocBlock)
        (x msg : String),
      findAttr "prompt" b.attrs = some x →
      newRegex x = .error msg →
      ∃ e, processBlock newRegex sessions b = .error e ∧ e.name = b.sessionName)
    ∧ (∀ (newRegex : String → Except String Regex) (sessions : Sessions) (b : PandocBlock)
        (sess : Session) (last_block : ReplBlock),
      lookupSession sessions b.sessionName = some sess →
      findAttr "cmd" b.attrs = none →
      findAttr "prompt" b.attrs = none →
      sess.blocks.getLast? = some last_block →
      processBlock newRegex sessions b = .ok (updateSession sessions b.sessionName
        ⟨sess.shell_cmd, sess.blocks ++
          [⟨last_block.prompt,
            (findAttr "prompt_char" b.attrs).getD last_block.prompt_char,
            strLines b.code⟩]⟩))
    ∧ (∀ (newRegex : String → Except String Regex) (sessions : Sessions) (b : PandocBlock)
        (c x r : String),
      lookupSession sessions b.sessionName = none →
      findAttr "cmd" b.attrs = some c →
      findAttr "prompt" b.attrs = some x →
      newRegex x = .ok r →
      findAttr "prompt_char" b.attrs = none →
      processBlock newRegex sessions b = .ok (sessions ++
        [(b.sessionName, ⟨c, [⟨r, ":", strLines b.code⟩]⟩)])) := by
  refine ⟨?_, ?_, ?_, ?_, ?_, ?_, ?_⟩
  · intro newRegex b rest e h
    simp [get_sessions, List.foldlM_cons, h]
    rfl
  · intro newRegex sessions b hlook hcmd
    cases hprompt : findAttr "prompt" b.attrs with
    | none =>
      exact ⟨.noCmd b.sessionName, by simp [processBlock, hprompt, hlook, hcmd], rfl⟩
    | some x =>
      cases hnr : newRegex x with
      | ok r =>
        exact ⟨.noCmd b.sessionName, by simp [processBlock, hprompt, hnr, hlook, hcmd], rfl⟩
      | error msg =>
        exact ⟨.badPromptRegex b.sessionName x msg, by simp [processBlock, hprompt, hnr], rfl⟩
  · intro newRegex sessions b c hlook hcmd hprompt
    exact ⟨.noPrompt b.sessionName, by simp [processBlock, hprompt, hlook, hcmd], rfl⟩
  · intro newRegex sessions b sess c hlook hcmd
    cases hprompt : findAttr "prompt" b.attrs with
    | none =>
      exact ⟨.cmdTwice b.sessionName c, by simp [processBlock, hprompt, hlook, hcmd], rfl⟩
    | some x =>
      cases hnr : newRegex x with
      | ok r =>
        exact ⟨.cmdTwice b.sessionName c, by simp [processBlock, hprompt, hnr, hlook, hcmd], rfl⟩
      | error msg =>
        exact ⟨.badPromptRegex b.sessionName x msg, by simp [processBlock, hprompt, hnr], rfl⟩
  · intro newRegex sessions b x msg hprompt hnr
    exact ⟨.badPromptRegex b.sessionName x msg, by simp [processBlock, hprompt, hnr], rfl⟩
  · intro newRegex sessions b sess last_block hlook hcmd hprompt hlast
    simp [processBlock, hprompt, hlook, hcmd, hlast]
  · intro newRegex sessions b c x r hlook hcmd hprompt hnr hpc
    simp [processBlock, hprompt, hnr, hlook, hcmd, hpc, DEFAULT_PROMPT_CHAR]

/-- A concrete stand-in regex compiler for witnesses: `"("` fails to
compile, everything else compiles to itself. -/
def nrTest : String → Except String Regex :=
  fun s => if s = "(" then .error "unclosed group" else .ok s

/-- A one-session map used by the C9 and C10 witnesses. -/
def sessOne : Sessions := [("s1", ⟨"sh", [⟨"p1", ":", []⟩]⟩)]

/-- Witness for C9: each conjunct applied at a concrete document block. -/
theorem c9_witness :
    get_sessions nrTest [⟨"s1", [], ""⟩] = .error (.noCmd "s1")
    ∧ (∃ e, processBlock nrTest [] ⟨"s1", [("cmd", "sh")], ""⟩ = .error e ∧ e.name = "s1")
    ∧ (∃ e, processBlock nrTest sessOne ⟨"s1", [("cmd", "sh")], ""⟩ = .error e ∧ e.name = "s1")
    ∧ (∃ e, processBlock nrTest [] ⟨"s1", [("cmd", "sh"), ("prompt", "(")], ""⟩ = .error e ∧
        e.name = "s1")
    ∧ processBlock nrTest sessOne ⟨"s1", [], "x"⟩ = .ok (updateSession sessOne "s1"
        ⟨"sh", [⟨"p1", ":", []⟩, ⟨"p1", ":", strLines "x"⟩]⟩)
    ∧ processBlock nrTest [] ⟨"s1", [("cmd", "sh"), ("prompt", "p")], ""⟩ =
        .ok ([] ++ [("s1", ⟨"sh", [⟨"p", ":", strLines ""⟩]⟩)]) :=
  ⟨c9_get_sessions_errors_and_inheritance.1 nrTest ⟨"s1", [], ""⟩ [] (.noCmd "s1") (by decide),
   c9_get_sessions_errors_and_inheritance.2.2.1 nrTest [] ⟨"s1", [("cmd", "sh")], ""⟩ "sh"
     (by decide) (by decide) (by decide),
   c9_get_sessions_errors_and_inheritance.2.2.2.1 nrTest sessOne ⟨"s1", [("cmd", "sh")], ""⟩
     ⟨"sh", [⟨"p1", ":", []⟩]⟩ "sh" (by decide) (by decide),
   c9_get_sessions_errors_and_inheritance.2.2.2.2.1 nrTest []
     ⟨"s1", [("cmd", "sh"), ("prompt", "(")], ""⟩ "(" "unclosed group" (by decide) (by decide),
   c9_get_sessions_errors_and_inheritance.2.2.2.2.2.1 nrTest sessOne ⟨"s1", [], "x"⟩
     ⟨"sh", [⟨"p1", ":", []⟩]⟩ ⟨"p1", ":", []⟩ (by decide) (by decide) (by decide) (by decide),
   c9_get_sessions_errors_and_inheritance.2.2.2.2.2.2 nrTest []
     ⟨"s1", [("cmd", "sh"), ("prompt", "p")], ""⟩ "sh" "p" "p"
     (by decide) (by decide) (by decide) (by decide) (by decide)⟩

/-- A transport whose process spawning always fails. -/
def spawnFailTransport : Transport Unit where
  spawn := fun _ _ => .error "spawn failed"
  read_until := fun _ _ => .error "no read"
  regex_escape := fun s => s
  regex_new := fun s => .ok s

/-- A transport whose process spawning always succeeds. -/
def spawnOkTransport : Transport Unit where
  spawn := fun _ _ => .ok ()
  read_until := fun _ _ => .error "no read"
  regex_escape := fun s => s
  regex_new := fun s => .ok s

/-- C10 counterexample: the claim says `run_sessions` never returns a result
on a nonempty sessions map, but `rexpect::spawn` runs before the
unimplemented `repl_block_to_cmd_invocations`, so with a failing spawn
`run_sessions` returns a transport error instead of panicking. -/
theorem c10_counterexample :
    run_sessions spawnFailTransport sessOne = .value (.error (.transport "spawn failed")) ∧
    sessOne ≠ [] :=
  ⟨rfl, by decide⟩

/-- C10 (amended): for every nonempty sessions map whose sessions all have
at least one block, and every transport whose spawn succeeds,
`run_sessions` panics via the unimplemented `repl_block_to_cmd_invocations`
— in particular before any prompt is read or any matching is performed,
since the result does not depend on `read_until` at all. -/
theorem c10_run_sessions_panics (Process : Type) (t : Transport Process) (m : Sessions)
    (hne : m ≠ []) (hblocks : ∀ q ∈ m, (Prod.snd q).blocks ≠ [])
    (hspawn : ∀ cmd timeout, ∃ proc, t.spawn cmd timeout = .ok proc) :
    run_sessions t m = .panics "not implemented" := by
  cases m with
  | nil => exact absurd rfl hne
  | cons hd rest =>
    obtain ⟨session_name, session⟩ := hd
    obtain ⟨proc, hproc⟩ := hspawn session.shell_cmd TIMEOUT_MS
    have hb : session.blocks ≠ [] := hblocks ⟨session_name, session⟩ (by simp)
    cases hblist : session.blocks with
    | nil => exact absurd hblist hb
    | cons b bs =>
      simp only [run_sessions, hproc, hblist]
      simp [runBlocks, repl_block_to_cmd_invocations]

/-- Witness for C10 (amended) at a concrete one-session map and a transport
that spawns successfully. -/
theorem c10_witness :
    sessOne ≠ [] ∧ run_sessions spawnOkTransport sessOne = .panics "not implemented" :=
  ⟨by decide, c10_run_sessions_panics Unit spawnOkTransport sessOne (by decide) (by decide)
    (fun cmd timeout => ⟨(), rfl⟩)⟩

end ReplCheck
